import Mathlib

/-!
Verification development for the KEGG_scrape repository.

The Python sources are shallowly embedded: strings are lists of
characters, Python dicts (which preserve insertion order and update
values in place) are association lists with in-place update, raised
exceptions are modelled with Except, and remote HTTP responses are
explicit inputs.
-/

namespace KeggScrape

/-- Strings of the Python model: plain lists of characters. -/
abbrev Str := List Char

/-- Conversion from Lean string literals to model strings. -/
def str (s : String) : Str := s.data

/-- Python str.split(sep) for a one-character separator: splitting the
empty string yields one empty piece, and every separator occurrence
opens a new piece. -/
def pySplitOn (sep : Char) : Str → List Str
  | [] => [[]]
  | c :: cs =>
    if c = sep then [] :: pySplitOn sep cs
    else
      match pySplitOn sep cs with
      | [] => [[c]]
      | l :: ls => (c :: l) :: ls

/-- Python line.split(sep, 1) for a one-character separator: splits at
the first occurrence, returning none when the separator is absent
(where the Python two-name unpacking would raise ValueError). -/
def pySplit1 (sep : Char) : Str → Option (Str × Str)
  | [] => none
  | c :: cs =>
    if c = sep then some ([], cs)
    else (pySplit1 sep cs).map (fun p => (c :: p.1, p.2))

/-- Characters removed by Python str.strip(): the ASCII whitespace set. -/
def pyIsSpaceChar (c : Char) : Bool :=
  c = ' ' || c = '\t' || c = '\n' || c = '\r' || c = '\x0b' || c = '\x0c'

/-- Python str.strip(): drop leading and trailing whitespace. -/
def pyStrip (s : Str) : Str :=
  ((s.dropWhile pyIsSpaceChar).reverse.dropWhile pyIsSpaceChar).reverse

/-- A FlatRecord field value: a single string, or the ordered sequence
of the lines of a tag that occurred several times. -/
inductive FieldVal where
  | scalar (v : Str)
  | seq (vs : List Str)
deriving DecidableEq, Repr, Inhabited

/-- A FlatRecord: insertion-ordered mapping from field tag to value,
as a Python dict of the parsers kegg_dict. -/
abbrev KDict := List (Str × FieldVal)

/-- Lookup in a FlatRecord, as the Python membership test and item
access on kegg_dict. -/
def kfind (t : Str) : KDict → Option FieldVal
  | [] => none
  | (k, v) :: rest => if k = t then some v else kfind t rest

/-- One accumulation step of the parsers: a first value for a tag is
stored scalar, a second promotes the slot to a two-element sequence,
and later values are appended; insertion order of a Python dict is
kept by updating in place. -/
def kinsert (d : KDict) (k : Str) (v : Str) : KDict :=
  match d with
  | [] => [(k, .scalar v)]
  | (k0, fv) :: rest =>
    if k0 = k then
      match fv with
      | .scalar v0 => (k0, .seq [v0, v]) :: rest
      | .seq vs => (k0, .seq (vs ++ [v])) :: rest
    else (k0, fv) :: kinsert rest k v

/-- The terminator test of both parsers: line.startswith("///"). -/
def isTerm (line : Str) : Bool := (str "///").isPrefixOf line

/-- Shared per-line step of both parser variants: split the line at the
first space (none when the line has no space), strip both halves, and
return the effective (current key, value) pair, where a nonempty key
replaces the current key ck and an empty key continues it. -/
def stepKV (line : Str) (ck : Str) : Option (Str × Str) :=
  match pySplit1 ' ' line with
  | none => none
  | some (k0, v0) =>
    let k := pyStrip k0
    let v := pyStrip v0
    some (if k ≠ [] then k else ck, v)

/-- Loop of KEGGExtractor.parse_kegg_data (scripts/kegg.py, the
tolerant variant): stop at the terminator line, skip lines without a
space, and accumulate the effective pair of every other line under its
effective current key. -/
def parseKeggLoop : List Str → Str → KDict → KDict
  | [], _, d => d
  | line :: rest, ck, d =>
    if isTerm line then d
    else
      match stepKV line ck with
      | none => parseKeggLoop rest ck d
      | some (k, v) => parseKeggLoop rest k (kinsert d k v)

/-- KEGGExtractor.parse_kegg_data (scripts/kegg.py lines 28-50): split
the raw text into lines and run the tolerant accumulation loop with an
empty current key and an empty dict. -/
def parse_kegg_data (data : Str) : KDict :=
  parseKeggLoop (pySplitOn '\n' data) [] []

/-- Loop of parse_gene_data (kegg_scrape.py, the strict variant): like
the tolerant loop, but a pre-terminator line without a space makes the
two-name unpacking of line.split(" ", 1) raise ValueError, modelled as
an error result. -/
def parseGeneLoop : List Str → Str → KDict → Except Unit KDict
  | [], _, d => .ok d
  | line :: rest, ck, d =>
    if isTerm line then .ok d
    else
      match stepKV line ck with
      | none => .error ()
      | some (k, v) => parseGeneLoop rest k (kinsert d k v)

/-- parse_gene_data (kegg_scrape.py lines 22-39): the strict parser on
raw text. -/
def parse_gene_data (data : Str) : Except Unit KDict :=
  parseGeneLoop (pySplitOn '\n' data) [] []

/-- The sequence of effective (tag, value) pairs contributed by the
lines before the terminator, in source order, starting from current
key ck. -/
def effEntries : List Str → Str → List (Str × Str)
  | [], _ => []
  | line :: rest, ck =>
    if isTerm line then []
    else
      match stepKV line ck with
      | none => effEntries rest ck
      | some (k, v) => (k, v) :: effEntries rest k

/-- The values of the entries carrying tag t, in order. -/
def valuesFor (t : Str) (es : List (Str × Str)) : List Str :=
  (es.filter (fun p => decide (p.1 = t))).map Prod.snd

/-- The value of the slot of tag t after one more accumulation of v. -/
def stepVal : Option FieldVal → Str → FieldVal
  | none, v => .scalar v
  | some (.scalar v0), v => .seq [v0, v]
  | some (.seq vs), v => .seq (vs ++ [v])

/-- The value of the slot of tag t after accumulating the value list
vs on top of a previous slot state o. -/
def combineVal (o : Option FieldVal) (vs : List Str) : Option FieldVal :=
  match vs with
  | [] => o
  | v :: vs1 =>
    match o with
    | none => some (if vs1 = [] then .scalar v else .seq (v :: vs1))
    | some (.scalar v0) => some (.seq (v0 :: v :: vs1))
    | some (.seq vs0) => some (.seq (vs0 ++ v :: vs1))

/-- Deduplication keeping the first appearance of each element, in
first-appearance order. -/
def firstKeys (ks : List Str) : List Str :=
  ks.foldl (fun acc k => if k ∈ acc then acc else acc ++ [k]) []

/-- The values, in source order, of the pre-terminator lines of the
text belonging to tag t under the tolerant parser. -/
def tagLines (data t : Str) : List Str :=
  valuesFor t (effEntries (pySplitOn '\n' data) [])

/-- The tolerant parser run only on the first n lines of the text. -/
def parsePrefix (data : Str) (n : Nat) : KDict :=
  parseKeggLoop ((pySplitOn '\n' data).take n) [] []

/-- The lines of the text before the first terminator line. -/
def preTermLines (data : Str) : List Str :=
  (pySplitOn '\n' data).takeWhile (fun l => !isTerm l)

/-- Python dict assignment temp_dict[id] = description on a plain
string-to-string dict: overwrite in place when the key exists,
otherwise append. -/
def dinsert (m : List (Str × Str)) (k v : Str) : List (Str × Str) :=
  match m with
  | [] => [(k, v)]
  | (k0, v0) :: rest =>
    if k0 = k then (k0, v) :: rest else (k0, v0) :: dinsert rest k v

/-- Lookup on a plain string-to-string dict. -/
def dlookup (t : Str) : List (Str × Str) → Option Str
  | [] => none
  | (k, v) :: rest => if k = t then some v else dlookup t rest

/-- Normalization at the top of get_info: a scalar value is treated as
a one-element sequence. -/
def elemsOf : FieldVal → List Str
  | .scalar s => [s]
  | .seq vs => vs

/-- One loop iteration of get_info: split the element at the first
space into id and description and store the pair; an element with no
space makes the two-name unpacking raise ValueError, which is caught,
logged and skipped. -/
def getInfoStep (m : List (Str × Str)) (e : Str) : List (Str × Str) :=
  match pySplit1 ' ' e with
  | none => m
  | some (i, dsc) => dinsert m i dsc

/-- get_info (kegg_scrape.py lines 42-52, scripts/main.py lines
43-54): normalize the sub-list to a sequence and accumulate every
element into the id-to-description dict. -/
def get_info (sub_list : FieldVal) : List (Str × Str) :=
  (elemsOf sub_list).foldl getInfoStep []

/-- The id token of a sub-list element that contains a space: the part
before the first space. -/
def wfId (e : Str) : Str := ((pySplit1 ' ' e).map Prod.fst).getD []

/-- The literal token whose SubListMap entry get_name pops. -/
def refseqTok : Str := str "(RefSeq)"

/-- A Python value that the description slot of an output record can
hold: the None object, a string, or a string-to-string dict. -/
inductive Desc where
  | pyNone
  | pyStr (s : Str)
  | pyMap (m : List (Str × Str))
deriving DecidableEq, Repr, Inhabited

/-- get_name (kegg_scrape.py lines 69-74): when the FlatRecord has a
NAME field, build the SubListMap with get_info, then rebind the name
description to the result of dict.pop on the literal token (RefSeq)
with default None, and store that value; none models the case where no
store happens because NAME is absent. -/
def get_name (kegg_info : KDict) : Option Desc :=
  match kfind (str "NAME") kegg_info with
  | none => none
  | some name_dict =>
    some (match dlookup refseqTok (get_info name_dict) with
          | some v => .pyStr v
          | none => .pyNone)

/-- Python substring containment needle in hay: true iff needle is a
contiguous substring of hay, with the empty string contained in
everything. -/
def isSubstring (needle : Str) : Str → Bool
  | [] => decide (needle = [])
  | c :: cs => needle.isPrefixOf (c :: cs) || isSubstring needle cs

/-- The no-hit sentinel of the resolver. -/
def noHit : Str := str "No hit"

/-- The default string of kegg_entry.get("id", ...) in Protocol A. -/
def noKeggIdFound : Str := str "No KEGG ID found"

/-- Result of the HTTP GET of fetch_kegg_id as seen by its try block:
a response text, or one of the two caught request exceptions. -/
inductive NetResult where
  | ok (text : Str)
  | httpError
  | requestError
deriving DecidableEq, Repr, Inhabited

/-- Loop of fetch_kegg_id over the response lines: take the first line
starting with the species code and a colon; its split at tabs must
give exactly two names, else the unpacking raises ValueError
(uncaught, modelled as an error); accept the line when the queried
symbol is a substring of the part of the gene list before the first
semicolon, else keep scanning. -/
def fkiLoop (sym species : Str) : List Str → Except Unit Str
  | [] => .ok noHit
  | line :: rest =>
    if (species ++ [':']).isPrefixOf line then
      match pySplitOn '\t' line with
      | [kegg_id, genes] =>
        if isSubstring sym ((pySplitOn ';' genes).headD []) then .ok kegg_id
        else fkiLoop sym species rest
      | _ => .error ()
    else fkiLoop sym species rest

/-- fetch_kegg_id (scripts/kegg_id_fetch.py lines 35-54), Protocol B:
HTTP and request errors are caught, logged, and fall through to the
no-hit sentinel; otherwise the stripped response is split into lines
and scanned. -/
def fetch_kegg_id (gene_symbol species : Str) (net : NetResult) : Except Unit Str :=
  match net with
  | .httpError => .ok noHit
  | .requestError => .ok noHit
  | .ok text => fkiLoop gene_symbol species (pySplitOn '\n' (pyStrip text))

/-- Modelled from the claim wording of spec 4.3 Protocol B, for
comparison with fetch_kegg_id: accept the first record whose
record-id is prefixed by the species code, whose gene list has exactly
two semicolon-delimited segments, and whose first segment holds the
queried symbol verbatim among its trimmed comma-separated synonyms. -/
def fetch_kegg_id_claimed (sym species text : Str) : Str :=
  match (pySplitOn '\n' (pyStrip text)).find? (fun line =>
    match pySplitOn '\t' line with
    | [cid, genes] =>
      species.isPrefixOf cid
        && decide ((pySplitOn ';' genes).length = 2)
        && decide (sym ∈ (pySplitOn ',' ((pySplitOn ';' genes).headD [])).map pyStrip)
    | _ => false) with
  | some line => (pySplitOn '\t' line).headD []
  | none => noHit

/-- The acceptance test that fetch_kegg_id actually applies to a line,
provided the line splits into exactly two tab fields. -/
def acceptB (sym species : Str) (line : Str) : Bool :=
  (species ++ [':']).isPrefixOf line
    && decide ((pySplitOn '\t' line).length = 2)
    && isSubstring sym ((pySplitOn ';' ((pySplitOn '\t' line).getD 1 [])).headD [])

/-- A UniProtKB cross-reference entry: the database name and the id
field that kegg_entry.get("id", ...) reads. -/
structure CrossRef where
  database : Str
  idField : Option Str
deriving DecidableEq, Repr, Inhabited

/-- One result of the UniProt search with its cross-reference list. -/
structure UResult where
  crossRefs : List CrossRef
deriving DecidableEq, Repr, Inhabited

/-- Result of the UniProt search request as seen by the try block of
fetch_uniprot_kegg_id. -/
inductive UNet where
  | ok (results : List UResult)
  | httpError
  | requestError
deriving DecidableEq, Repr, Inhabited

/-- find_kegg_entry (scripts/kegg_id_fetch.py lines 27-33): scan the
results in order and return the first cross-reference entry whose
database field is KEGG. -/
def find_kegg_entry (results : List UResult) : Option CrossRef :=
  results.findSome?
    (fun r => r.crossRefs.find? (fun e => decide (e.database = str "KEGG")))

/-- fetch_uniprot_kegg_id (scripts/kegg_id_fetch.py lines 56-82),
Protocol A with the HTTP call modelled as an input: request and HTTP
errors are caught and yield the sentinel; a found entry yields its id
field or the default string; no entry yields the sentinel. -/
def fetch_uniprot_kegg_id (net : UNet) : Str :=
  match net with
  | .httpError => noHit
  | .requestError => noHit
  | .ok results =>
    match find_kegg_entry results with
    | some entry => entry.idField.getD noKeggIdFound
    | none => noHit

/-- An enrichment entry of the combined mapping: the kegg_data and
hpa_data blobs stored per identifier by
DataProcessor.process_kegg_and_hpa_data. -/
structure Entry where
  kegg_data : Str
  hpa_data : Str
deriving DecidableEq, Repr, Inhabited

/-- Generic Python dict assignment on an insertion-ordered association
list: overwrite in place when the key exists, otherwise append. -/
def alInsert {α : Type} (m : List (Str × α)) (k : Str) (v : α) :
    List (Str × α) :=
  match m with
  | [] => [(k, v)]
  | (k0, v0) :: rest =>
    if k0 = k then (k0, v) :: rest else (k0, v0) :: alInsert rest k v

/-- Generic lookup on an insertion-ordered association list. -/
def alLookup {α : Type} (t : Str) : List (Str × α) → Option α
  | [] => none
  | (k, v) :: rest => if k = t then some v else alLookup t rest

/-- The combined data of the orchestrator: a Python dict from excel
file name to a dict from kegg id to entry. -/
abbrev CombData := List (Str × List (Str × Entry))

/-- The nested write combined_data[file][id] = entry of
process_kegg_and_hpa_data, creating the per-file dict when absent. -/
def cdStore (cd : CombData) (f i : Str) (e : Entry) : CombData :=
  alInsert cd f (alInsert ((alLookup f cd).getD []) i e)

/-- Completion of one orchestrator task for (file, id, cell type):
fetch the KEGG and HPA data for the id (none models the logged
early-return failure paths of process_kegg_and_hpa_data, which store
nothing) and on success merge the entry into the combined data. -/
def processTask (fetch : Str → Str → Option Entry) (cd : CombData)
    (t : Str × Str × Str) : CombData :=
  match fetch t.2.1 t.2.2 with
  | none => cd
  | some e => cdStore cd t.1 t.2.1 e

/-- The combined data obtained by running the dispatched tasks in one
given completion order, starting from the empty dict. -/
def mergeOrder (fetch : Str → Str → Option Entry)
    (tasks : List (Str × Str × Str)) : CombData :=
  tasks.foldl (processTask fetch) []

/-- The not-yet-cached ids of one input file, deduplicated in
first-appearance order: a determinization of the Python expression
list(set(kegg_ids) - set(hsa_entries_keys)), whose iteration order is
unspecified. -/
def filteredIds (ids : List Str) (cacheKeys : List Str) : List Str :=
  firstKeys (ids.filter (fun i => decide (i ∉ cacheKeys)))

/-- The tasks dispatched by run_scrape: one per not-yet-cached id of
each input file (name, cell type, ids), tagged with the file name and
cell type. -/
def dispatchedTasks (files : List (Str × Str × List Str))
    (cache : CombData) : List (Str × Str × Str) :=
  (files.map (fun f =>
    (filteredIds f.2.2 (cache.map Prod.fst)).map
      (fun i => (f.1, i, f.2.1)))).flatten

/-- Python dict.update: assign every pair of upd into base, in
order. -/
def pyUpdate (base upd : CombData) : CombData :=
  upd.foldl (fun b p => alInsert b p.1 p.2) base

/-- run_scrape (scripts/scrape_info.py lines 116-137): dispatch one
task per not-yet-cached id per input file, merge the task results
(written here in dispatch order; invariance of the content under
completion order is the subject of C9), then update the combined data
with the loaded cache entries. -/
def run_scrape (files : List (Str × Str × List Str)) (cache : CombData)
    (fetch : Str → Str → Option Entry) : CombData :=
  pyUpdate (mergeOrder fetch (dispatchedTasks files cache)) cache

/-- The slot written by one task: its file name and kegg id. -/
def slotOf (t : Str × Str × Str) : Str × Str := (t.1, t.2.1)

/-- Lookup of one (file, id) slot in the combined data. -/
def alLookup2 (f i : Str) (cd : CombData) : Option Entry :=
  (alLookup f cd).bind (alLookup i)

/-- State of the cache file as seen by get_json: missing, or present
with some byte content. -/
inductive FileState where
  | absent
  | present (content : Str)
deriving DecidableEq, Repr, Inhabited

/-- get_json (scripts/scrape_info.py lines 99-112), with json.load of
the standard library modelled as an explicit decode argument that
either returns a value or raises JSONDecodeError: a missing path and a
zero-size file yield an empty dict with a logged warning, a decode
error is caught, logged, and yields an empty dict, and a decoded value
is returned as-is. -/
def get_json (decode : Str → Except Unit CombData) : FileState → CombData
  | .absent => []
  | .present content =>
    if content = [] then []
    else
      match decode content with
      | .ok j => j
      | .error _ => []

lemma kfind_kinsert (d : KDict) (k v t : Str) :
    kfind t (kinsert d k v) =
      if k = t then some (stepVal (kfind t d) v) else kfind t d := by
  induction d with
  | nil =>
    by_cases h : k = t <;> simp [kinsert, kfind, h, stepVal]
  | cons hd tl ih =>
    obtain ⟨k0, fv⟩ := hd
    by_cases h0 : k0 = k
    · subst h0
      cases fv <;> by_cases h : k0 = t <;>
        simp [kinsert, kfind, h, stepVal]
    · by_cases h : k0 = t
      · subst h
        simp [kinsert, kfind, h0, Ne.symm h0, ih]
      · simp [kinsert, kfind, h0, h, ih]

lemma combineVal_cons (o : Option FieldVal) (v : Str) (vs : List Str) :
    combineVal o (v :: vs) = combineVal (some (stepVal o v)) vs := by
  cases o with
  | none => cases vs <;> simp [combineVal, stepVal]
  | some fv => cases fv <;> cases vs <;> simp [combineVal, stepVal]

lemma combineVal_append (o : Option FieldVal) (vs1 vs2 : List Str) :
    combineVal o (vs1 ++ vs2) = combineVal (combineVal o vs1) vs2 := by
  induction vs1 generalizing o with
  | nil => simp [combineVal]
  | cons v vs ih => simp [combineVal_cons, ih]

lemma kfind_foldl_kinsert (es : List (Str × Str)) (d : KDict) (t : Str) :
    kfind t (es.foldl (fun d p => kinsert d p.1 p.2) d) =
      combineVal (kfind t d) (valuesFor t es) := by
  induction es generalizing d with
  | nil => simp [valuesFor, combineVal]
  | cons p es ih =>
    obtain ⟨k, v⟩ := p
    by_cases h : k = t
    · subst h
      simp [List.foldl_cons, ih, valuesFor, List.filter_cons, kfind_kinsert,
        combineVal_cons]
    · simp [List.foldl_cons, ih, valuesFor, List.filter_cons, h, kfind_kinsert]

lemma parseKeggLoop_eq_foldl (lines : List Str) (ck : Str) (d : KDict) :
    parseKeggLoop lines ck d =
      (effEntries lines ck).foldl (fun d p => kinsert d p.1 p.2) d := by
  induction lines generalizing ck d with
  | nil => simp [parseKeggLoop, effEntries]
  | cons line rest ih =>
    by_cases hterm : isTerm line
    · simp [parseKeggLoop, effEntries, hterm]
    · cases hstep : stepKV line ck with
      | none => simp [parseKeggLoop, effEntries, hterm, hstep, ih]
      | some p =>
        obtain ⟨k, v⟩ := p
        simp [parseKeggLoop, effEntries, hterm, hstep, ih]

lemma effEntries_append (l1 l2 : List Str) (ck : Str) :
    ∃ tail, effEntries (l1 ++ l2) ck = effEntries l1 ck ++ tail := by
  induction l1 generalizing ck with
  | nil => exact ⟨effEntries l2 ck, by simp [effEntries]⟩
  | cons line rest ih =>
    by_cases hterm : isTerm line
    · exact ⟨[], by simp [effEntries, hterm]⟩
    · cases hstep : stepKV line ck with
      | none =>
        obtain ⟨tail, htail⟩ := ih ck
        exact ⟨tail, by simp [effEntries, hterm, hstep, htail]⟩
      | some p =>
        obtain ⟨tail, htail⟩ := ih p.1
        exact ⟨tail, by simp [effEntries, hterm, hstep, htail]⟩

lemma map_fst_kinsert (d : KDict) (k v : Str) :
    (kinsert d k v).map Prod.fst =
      if k ∈ d.map Prod.fst then d.map Prod.fst else d.map Prod.fst ++ [k] := by
  induction d with
  | nil => simp [kinsert]
  | cons hd tl ih =>
    obtain ⟨k0, fv⟩ := hd
    by_cases h0 : k0 = k
    · subst h0
      cases fv <;> simp [kinsert]
    · by_cases hm : k ∈ tl.map Prod.fst <;>
        simp [kinsert, h0, Ne.symm h0, ih, hm]

lemma map_fst_foldl_kinsert (es : List (Str × Str)) (d : KDict) :
    (es.foldl (fun d p => kinsert d p.1 p.2) d).map Prod.fst =
      (es.map Prod.fst).foldl
        (fun acc k => if k ∈ acc then acc else acc ++ [k]) (d.map Prod.fst) := by
  induction es generalizing d with
  | nil => simp
  | cons p es ih =>
    obtain ⟨k, v⟩ := p
    simp [List.foldl_cons, ih, map_fst_kinsert]

lemma combineVal_seq (vs ws : List Str) :
    combineVal (some (.seq vs)) ws = some (.seq (vs ++ ws)) := by
  cases ws <;> simp [combineVal]

lemma valuesFor_append (t : Str) (a b : List (Str × Str)) :
    valuesFor t (a ++ b) = valuesFor t a ++ valuesFor t b := by
  simp [valuesFor]

lemma kfind_parseKeggLoop (lines : List Str) (t : Str) :
    kfind t (parseKeggLoop lines [] []) =
      combineVal none (valuesFor t (effEntries lines [])) := by
  rw [parseKeggLoop_eq_foldl, kfind_foldl_kinsert]
  rfl

/-- C1: in the FlatRecord produced by the tolerant flat-record parser,
a tag whose lines occur more than once maps to the ordered sequence of
exactly those lines, in source order, so its length equals the number
of lines belonging to the tag; once the slot of a tag has become a
sequence on some prefix of the lines it stays a (only growing)
sequence on every longer prefix; and the tags of the mapping are
listed in first-appearance order of the effective tags of the source
text. -/
theorem C1_flat_record_invariants (data t : Str) :
    (2 ≤ (tagLines data t).length →
      kfind t (parse_kegg_data data) = some (.seq (tagLines data t)))
    ∧ (∀ n m vs, n ≤ m → kfind t (parsePrefix data n) = some (.seq vs) →
        ∃ ws, kfind t (parsePrefix data m) = some (.seq (vs ++ ws)))
    ∧ (parse_kegg_data data).map Prod.fst =
        firstKeys ((effEntries (pySplitOn '\n' data) []).map Prod.fst) := by
  refine ⟨?_, ?_, ?_⟩
  · intro h2
    rw [parse_kegg_data, kfind_parseKeggLoop]
    rw [tagLines] at h2 ⊢
    cases hvs : valuesFor t (effEntries (pySplitOn '\n' data) []) with
    | nil => rw [hvs] at h2; simp at h2
    | cons v vs1 =>
      cases vs1 with
      | nil => rw [hvs] at h2; simp at h2
      | cons v1 vs2 => simp [combineVal]
  · intro n m vs hnm hn
    have hsplit : (pySplitOn '\n' data).take m =
        (pySplitOn '\n' data).take n ++
          (((pySplitOn '\n' data).drop n).take (m - n)) := by
      rw [← List.take_add]
      congr 1
      omega
    obtain ⟨tail, htail⟩ := effEntries_append
      ((pySplitOn '\n' data).take n)
      (((pySplitOn '\n' data).drop n).take (m - n)) []
    rw [parsePrefix, kfind_parseKeggLoop] at hn
    refine ⟨valuesFor t tail, ?_⟩
    rw [parsePrefix, kfind_parseKeggLoop, hsplit, htail, valuesFor_append,
      combineVal_append, hn, combineVal_seq]
  · rw [parse_kegg_data, parseKeggLoop_eq_foldl, map_fst_foldl_kinsert]
    rfl

/-- Witness for C1: in a concrete text the NAME tag has two lines and
parses to the two-element sequence of exactly those lines. -/
theorem C1_flat_record_invariants_witness :
    2 ≤ (tagLines (str "SYMBOL  A, B\nNAME    first\nNAME    second\n///")
          (str "NAME")).length
    ∧ kfind (str "NAME")
        (parse_kegg_data (str "SYMBOL  A, B\nNAME    first\nNAME    second\n///")) =
        some (.seq (tagLines (str "SYMBOL  A, B\nNAME    first\nNAME    second\n///")
          (str "NAME"))) :=
  ⟨by decide,
   (C1_flat_record_invariants
     (str "SYMBOL  A, B\nNAME    first\nNAME    second\n///")
     (str "NAME")).1 (by decide)⟩

/-- C2: both parser variants stop at the first line equal to the
terminator "///", so no later line contributes to the output; and the
specification text with a trailing junk line after the terminator
parses to the expected mapping, the junk line ignored. -/
theorem C2_terminator_cuts (pre post : List Str) (ck : Str) (d : KDict) :
    parseKeggLoop (pre ++ str "///" :: post) ck d =
      parseKeggLoop (pre ++ [str "///"]) ck d
    ∧ parseGeneLoop (pre ++ str "///" :: post) ck d =
      parseGeneLoop (pre ++ [str "///"]) ck d
    ∧ parse_kegg_data
        (str "SYMBOL  A, B\nNAME    first (RefSeq)\nNAME    second\n///\njunk") =
        [(str "SYMBOL", .scalar (str "A, B")),
         (str "NAME", .seq [str "first (RefSeq)", str "second"])]
    ∧ parse_gene_data
        (str "SYMBOL  A, B\nNAME    first (RefSeq)\nNAME    second\n///\njunk") =
        .ok [(str "SYMBOL", .scalar (str "A, B")),
             (str "NAME", .seq [str "first (RefSeq)", str "second"])] := by
  refine ⟨?_, ?_, by decide, rfl⟩
  · induction pre generalizing ck d with
    | nil => simp [parseKeggLoop, isTerm, str, List.isPrefixOf]
    | cons line rest ih =>
      by_cases hterm : isTerm line
      · simp [parseKeggLoop, hterm]
      · cases hstep : stepKV line ck with
        | none => simp [parseKeggLoop, hterm, hstep, ih]
        | some p => simp [parseKeggLoop, hterm, hstep, ih]
  · induction pre generalizing ck d with
    | nil => simp [parseGeneLoop, isTerm, str, List.isPrefixOf]
    | cons line rest ih =>
      by_cases hterm : isTerm line
      · simp [parseGeneLoop, hterm]
      · cases hstep : stepKV line ck with
        | none => simp [parseGeneLoop, hterm, hstep]
        | some p => simp [parseGeneLoop, hterm, hstep, ih]

lemma pySplit1_eq_none (sep : Char) (s : Str) :
    pySplit1 sep s = none ↔ sep ∉ s := by
  induction s with
  | nil => simp [pySplit1]
  | cons c cs ih =>
    by_cases h : c = sep
    · subst h
      simp [pySplit1]
    · simp [pySplit1, h, ih, Ne.symm h]

lemma stepKV_eq_none (line ck : Str) :
    stepKV line ck = none ↔ ' ' ∉ line := by
  rw [← pySplit1_eq_none ' ' line]
  cases h : pySplit1 ' ' line <;> simp [stepKV, h]

lemma parseGeneLoop_ok (lines : List Str) (ck : Str) (d : KDict)
    (h : ∀ line ∈ lines.takeWhile (fun l => !isTerm l), ' ' ∈ line) :
    parseGeneLoop lines ck d = .ok (parseKeggLoop lines ck d) := by
  induction lines generalizing ck d with
  | nil => simp [parseGeneLoop, parseKeggLoop]
  | cons line rest ih =>
    by_cases hterm : isTerm line
    · simp [parseGeneLoop, parseKeggLoop, hterm]
    · have hline : ' ' ∈ line := by
        apply h
        simp [List.takeWhile_cons, hterm]
      have hrest : ∀ l ∈ rest.takeWhile (fun l => !isTerm l), ' ' ∈ l := by
        intro l hl
        apply h
        simp [List.takeWhile_cons, hterm]
        exact Or.inr hl
      cases hstep : stepKV line ck with
      | none =>
        rw [stepKV_eq_none] at hstep
        exact absurd hline hstep
      | some p => simp [parseGeneLoop, parseKeggLoop, hterm, hstep, ih _ _ hrest]

lemma parseGeneLoop_error (lines : List Str) (ck : Str) (d : KDict)
    (h : ∃ line ∈ lines.takeWhile (fun l => !isTerm l), ' ' ∉ line) :
    parseGeneLoop lines ck d = .error () := by
  induction lines generalizing ck d with
  | nil => simp at h
  | cons line rest ih =>
    by_cases hterm : isTerm line
    · simp [List.takeWhile_cons, hterm] at h
    · obtain ⟨l, hl, hlnosp⟩ := h
      rw [List.takeWhile_cons] at hl
      simp [hterm] at hl
      by_cases hline : ' ' ∈ line
      · have hstep : ∃ p, stepKV line ck = some p := by
          cases hs : stepKV line ck with
          | none => rw [stepKV_eq_none] at hs; exact absurd hline hs
          | some p => exact ⟨p, rfl⟩
        obtain ⟨p, hp⟩ := hstep
        have hlr : l ∈ rest.takeWhile (fun l => !isTerm l) := by
          rcases hl with hl | hl
          · subst hl; exact absurd hlnosp (by simp [hline])
          · exact hl
        simp [parseGeneLoop, hterm, hp, ih _ _ ⟨l, hlr, hlnosp⟩]
      · have hstep : stepKV line ck = none := (stepKV_eq_none line ck).2 hline
        simp [parseGeneLoop, hterm, hstep]

/-- C10: on any text all of whose pre-terminator lines contain a
space, the strict parser parse_gene_data succeeds and returns exactly
the FlatRecord of the tolerant parser parse_kegg_data; on any text
with a space-free pre-terminator line the strict parser raises
ValueError, while the tolerant parser simply skips such a line. -/
theorem C10_strict_tolerant_refinement (data : Str) :
    ((∀ line ∈ preTermLines data, ' ' ∈ line) →
      parse_gene_data data = .ok (parse_kegg_data data))
    ∧ ((∃ line ∈ preTermLines data, ' ' ∉ line) →
      parse_gene_data data = .error ())
    ∧ (∀ line rest ck d, ¬ isTerm line → ' ' ∉ line →
      parseKeggLoop (line :: rest) ck d = parseKeggLoop rest ck d) := by
  refine ⟨?_, ?_, ?_⟩
  · intro h
    exact parseGeneLoop_ok _ _ _ h
  · intro h
    exact parseGeneLoop_error _ _ _ h
  · intro line rest ck d hterm hnosp
    have hstep : stepKV line ck = none := (stepKV_eq_none line ck).2 hnosp
    simp [parseKeggLoop, hterm, hstep]

/-- Witness for C10: a concrete text where every pre-terminator line
has a space makes the two variants agree, and a concrete text with a
space-free line makes the strict variant raise. -/
theorem C10_strict_tolerant_refinement_witness :
    (parse_gene_data (str "SYMBOL  A, B\n///\njunk") =
      .ok (parse_kegg_data (str "SYMBOL  A, B\n///\njunk")))
    ∧ parse_gene_data (str "SYMBOL  A, B\nBADLINE\n///") = .error () :=
  ⟨(C10_strict_tolerant_refinement (str "SYMBOL  A, B\n///\njunk")).1 (by decide),
   (C10_strict_tolerant_refinement (str "SYMBOL  A, B\nBADLINE\n///")).2.1
     (by decide)⟩

lemma length_dinsert_le (m : List (Str × Str)) (k v : Str) :
    (dinsert m k v).length ≤ m.length + 1 := by
  induction m with
  | nil => simp [dinsert]
  | cons hd tl ih =>
    obtain ⟨k0, v0⟩ := hd
    by_cases h0 : k0 = k <;> (simp [dinsert, h0]; try omega)

lemma length_dinsert_fresh (m : List (Str × Str)) (k v : Str)
    (h : k ∉ m.map Prod.fst) :
    (dinsert m k v).length = m.length + 1 := by
  induction m with
  | nil => simp [dinsert]
  | cons hd tl ih =>
    obtain ⟨k0, v0⟩ := hd
    simp only [List.map_cons, List.mem_cons] at h
    push_neg at h
    simp [dinsert, Ne.symm h.1, ih h.2]

lemma map_fst_dinsert_fresh (m : List (Str × Str)) (k v : Str)
    (h : k ∉ m.map Prod.fst) :
    (dinsert m k v).map Prod.fst = m.map Prod.fst ++ [k] := by
  induction m with
  | nil => simp [dinsert]
  | cons hd tl ih =>
    obtain ⟨k0, v0⟩ := hd
    simp only [List.map_cons, List.mem_cons] at h
    push_neg at h
    simp [dinsert, Ne.symm h.1, ih h.2]

lemma foldl_getInfoStep_le (es : List Str) (m : List (Str × Str)) :
    (es.foldl getInfoStep m).length ≤ m.length + es.length := by
  induction es generalizing m with
  | nil => simp
  | cons e es ih =>
    have hstep : (getInfoStep m e).length ≤ m.length + 1 := by
      cases h : pySplit1 ' ' e with
      | none => simp [getInfoStep, h]
      | some p => simpa [getInfoStep, h] using length_dinsert_le m p.1 p.2
    calc (List.foldl getInfoStep m (e :: es)).length
        = (List.foldl getInfoStep (getInfoStep m e) es).length := by simp
      _ ≤ (getInfoStep m e).length + es.length := ih _
      _ ≤ m.length + (e :: es).length := by simp; omega

lemma pySplit1_isSome_of_mem (e : Str) (h : ' ' ∈ e) :
    ∃ p, pySplit1 ' ' e = some p := by
  cases hs : pySplit1 ' ' e with
  | none => exact absurd h ((pySplit1_eq_none ' ' e).1 hs)
  | some p => exact ⟨p, rfl⟩

lemma foldl_getInfoStep_exact (es : List Str) (m : List (Str × Str))
    (hwf : ∀ e ∈ es, ' ' ∈ e)
    (hnd : (es.map wfId).Nodup)
    (hfresh : ∀ e ∈ es, wfId e ∉ m.map Prod.fst) :
    (es.foldl getInfoStep m).length = m.length + es.length := by
  induction es generalizing m with
  | nil => simp
  | cons e es ih =>
    obtain ⟨p, hp⟩ := pySplit1_isSome_of_mem e (hwf e (by simp))
    have hid : wfId e = p.1 := by simp [wfId, hp]
    have hfr : p.1 ∉ m.map Prod.fst := hid ▸ hfresh e (by simp)
    have hstep : getInfoStep m e = dinsert m p.1 p.2 := by
      simp [getInfoStep, hp]
    simp only [List.map_cons, List.nodup_cons] at hnd
    have hrec := ih (dinsert m p.1 p.2) (fun x hx => hwf x (by simp [hx]))
      hnd.2 (fun x hx => by
        rw [map_fst_dinsert_fresh m p.1 p.2 hfr]
        simp only [List.mem_append, List.mem_singleton]
        push_neg
        refine ⟨hfresh x (by simp [hx]), ?_⟩
        rw [← hid]
        intro hcontra
        exact hnd.1 (hcontra ▸ List.mem_map_of_mem wfId hx))
    calc (List.foldl getInfoStep m (e :: es)).length
        = (List.foldl getInfoStep (dinsert m p.1 p.2) es).length := by
          simp [hstep]
      _ = (dinsert m p.1 p.2).length + es.length := hrec
      _ = m.length + (e :: es).length := by
          rw [length_dinsert_fresh m p.1 p.2 hfr]
          simp
          omega

/-- Counterexample for C6 as stated: two well-formed lines sharing the
id token collapse into a single entry of the mapping, so the output of
the splitter on these N = 2 well-formed lines has 1 entry, not N. -/
theorem C6_splitter_counterexample :
    (∀ e ∈ elemsOf (.seq [str "A 1", str "A 2"]), ' ' ∈ e)
    ∧ (get_info (.seq [str "A 1", str "A 2"])).length = 1
    ∧ (elemsOf (.seq [str "A 1", str "A 2"])).length = 2 := by decide

/-- C6 amended: on a sub-list input whose N elements all contain a
space and whose id tokens are pairwise distinct, the splitter returns
a mapping with exactly N entries; without the distinctness assumption
the mapping never has more entries than input elements (a scalar input
counting as one element). -/
theorem C6_splitter_entry_count (fv : FieldVal) :
    (get_info fv).length ≤ (elemsOf fv).length
    ∧ ((∀ e ∈ elemsOf fv, ' ' ∈ e) → ((elemsOf fv).map wfId).Nodup →
        (get_info fv).length = (elemsOf fv).length) := by
  constructor
  · simpa using foldl_getInfoStep_le (elemsOf fv) []
  · intro hwf hnd
    simpa using foldl_getInfoStep_exact (elemsOf fv) [] hwf hnd (by simp)

/-- Witness for C6 amended: the two-line example of the specification
yields exactly two entries. -/
theorem C6_splitter_entry_count_witness :
    (get_info (.seq [str "101 PathwayOne", str "102 PathwayTwo"])).length =
      (elemsOf (.seq [str "101 PathwayOne", str "102 PathwayTwo"])).length :=
  (C6_splitter_entry_count (.seq [str "101 PathwayOne", str "102 PathwayTwo"])).2
    (by decide) (by decide)

/-- Counterexample for C3 as stated: on a FlatRecord whose NAME field
is the single line "A B", the SubListMap with entries of shortId
(RefSeq) dropped is the one-entry mapping from A to B, but the stored
description is the Python None object, because dict.pop returns the
popped value (here the default None), not the remaining mapping. -/
theorem C3_name_counterexample :
    get_name [(str "NAME", FieldVal.scalar (str "A B"))] = some Desc.pyNone
    ∧ (get_info (FieldVal.scalar (str "A B"))).filter
        (fun p => !decide (p.1 = refseqTok)) = [(str "A", str "B")]
    ∧ some Desc.pyNone ≠ some (Desc.pyMap [(str "A", str "B")]) := by decide

/-- C3 amended: for every FlatRecord containing a NAME field, the
stored description is the value mapped by the literal token (RefSeq)
in the SubListMap of the NAME field when such an entry exists, and the
None sentinel otherwise; the remaining SubListMap entries are
discarded, and the stored description is never a mapping. -/
theorem C3_name_pop_value (d : KDict) (fv : FieldVal)
    (h : kfind (str "NAME") d = some fv) :
    (dlookup refseqTok (get_info fv) = none → get_name d = some .pyNone)
    ∧ (∀ v, dlookup refseqTok (get_info fv) = some v →
        get_name d = some (.pyStr v))
    ∧ ∀ m, get_name d ≠ some (.pyMap m) := by
  unfold get_name
  rw [h]
  cases hdl : dlookup refseqTok (get_info fv) <;> simp [hdl]

/-- Witness for C3 amended: on a concrete FlatRecord whose NAME field
is "(RefSeq) protein x", the stored description is the bare string
"protein x". -/
theorem C3_name_pop_value_witness :
    get_name [(str "NAME", FieldVal.scalar (str "(RefSeq) protein x"))] =
      some (.pyStr (str "protein x")) :=
  (C3_name_pop_value
    [(str "NAME", FieldVal.scalar (str "(RefSeq) protein x"))]
    (FieldVal.scalar (str "(RefSeq) protein x")) (by decide)).2.1
    (str "protein x") (by decide)

lemma fkiLoop_find (sym species : Str) (lines : List Str)
    (h : ∀ l ∈ lines, (species ++ [':']).isPrefixOf l →
      (pySplitOn '\t' l).length = 2) :
    fkiLoop sym species lines =
      .ok ((lines.find? (acceptB sym species)).elim noHit
        (fun l => (pySplitOn '\t' l).headD [])) := by
  induction lines with
  | nil => simp [fkiLoop]
  | cons line rest ih =>
    have hrest : ∀ l ∈ rest, (species ++ [':']).isPrefixOf l →
        (pySplitOn '\t' l).length = 2 :=
      fun l hl => h l (by simp [hl])
    by_cases hpre : (species ++ [':']).isPrefixOf line
    · have hlen : (pySplitOn '\t' line).length = 2 := h line (by simp) hpre
      cases htab : pySplitOn '\t' line with
      | nil => rw [htab] at hlen; simp at hlen
      | cons a t =>
        cases t with
        | nil => rw [htab] at hlen; simp at hlen
        | cons b t2 =>
          cases t2 with
          | cons x t3 => rw [htab] at hlen; simp at hlen
          | nil =>
            by_cases hsub : isSubstring sym ((pySplitOn ';' b).head?.getD [])
            · have hacc : acceptB sym species line = true := by
                simp [acceptB, hpre, htab, hsub]
              simp [fkiLoop, hpre, htab, hsub, List.find?_cons, hacc]
            · have hacc : acceptB sym species line = false := by
                simp [acceptB, htab, hsub]
              simp [fkiLoop, hpre, htab, hsub, List.find?_cons, hacc,
                ih hrest]
    · have hacc : acceptB sym species line = false := by
        simp [acceptB, hpre]
      simp [fkiLoop, hpre, List.find?_cons, hacc, ih hrest]

/-- Counterexample for C4 as stated: with symbol ABC and species hsa,
on the single-record response "hsa:1 TAB ABCD; x" the record does not
satisfy the claimed conditions (ABC is not verbatim among the trimmed
synonyms ABCD of the first segment), yet the code returns its
candidate id hsa:1, because the code only tests substring containment
in the raw first segment and never counts segments. -/
theorem C4_keyword_counterexample :
    fetch_kegg_id (str "ABC") (str "hsa") (.ok (str "hsa:1\tABCD; x")) =
      .ok (str "hsa:1")
    ∧ fetch_kegg_id_claimed (str "ABC") (str "hsa") (str "hsa:1\tABCD; x") =
      noHit
    ∧ str "hsa:1" ≠ noHit :=
  ⟨rfl, by decide, by decide⟩

/-- C4 amended: when every species-prefixed line of the response has
exactly two tab fields, Protocol B returns the first tab field of the
first line that starts with the species code followed by a colon and
whose queried symbol occurs as a substring of the gene-list text
before the first semicolon — with no check that the gene list has two
semicolon segments and no trimmed verbatim synonym membership — and
returns the no-hit sentinel when no line matches or the request
fails. -/
theorem C4_keyword_first_match (sym species text : Str)
    (h : ∀ l ∈ pySplitOn '\n' (pyStrip text),
      (species ++ [':']).isPrefixOf l → (pySplitOn '\t' l).length = 2) :
    fetch_kegg_id sym species (.ok text) =
      .ok (((pySplitOn '\n' (pyStrip text)).find? (acceptB sym species)).elim
        noHit (fun l => (pySplitOn '\t' l).headD []))
    ∧ fetch_kegg_id sym species .httpError = .ok noHit
    ∧ fetch_kegg_id sym species .requestError = .ok noHit :=
  ⟨fkiLoop_find sym species (pySplitOn '\n' (pyStrip text)) h, rfl, rfl⟩

/-- Witness for C4 amended: on a concrete two-line response the first
matching line wins and its candidate id is returned. -/
theorem C4_keyword_first_match_witness :
    fetch_kegg_id (str "BRCA2") (str "hsa")
      (.ok (str "ptr:100\tBRCA2; other\nhsa:675\tBRCA2; breast cancer 2")) =
      .ok (str "hsa:675") := by
  have h := (C4_keyword_first_match (str "BRCA2") (str "hsa")
    (str "ptr:100\tBRCA2; other\nhsa:675\tBRCA2; breast cancer 2")
    (by decide)).1
  rw [h]
  exact congrArg Except.ok (by decide)

/-- Counterexample for C5 as stated: on the response "hsa:1", a line
that starts with the species code and a colon but has no tab, the
two-name unpacking of line.split of a tab raises ValueError, which no
except clause catches, so Protocol B raises to its caller instead of
returning a string or the sentinel. -/
theorem C5_resolver_raises_counterexample :
    fetch_kegg_id (str "A") (str "hsa") (.ok (str "hsa:1")) = .error () :=
  rfl

/-- C5 amended: both protocols return a string and never raise
provided every species-prefixed line of the Protocol B response splits
into exactly two tab fields; under that proviso an unmatched symbol
yields the no-hit sentinel, and HTTP or request errors on either call
are caught and downgraded to the sentinel; without the proviso
Protocol B can raise ValueError to its caller. -/
theorem C5_resolver_error_handling (sym species : Str) (net : NetResult)
    (unet : UNet)
    (h : ∀ text, net = .ok text → ∀ l ∈ pySplitOn '\n' (pyStrip text),
      (species ++ [':']).isPrefixOf l → (pySplitOn '\t' l).length = 2) :
    (∃ s, fetch_kegg_id sym species net = .ok s)
    ∧ (∀ text, net = .ok text →
        (∀ l ∈ pySplitOn '\n' (pyStrip text), acceptB sym species l = false) →
        fetch_kegg_id sym species net = .ok noHit)
    ∧ fetch_kegg_id sym species .httpError = .ok noHit
    ∧ fetch_kegg_id sym species .requestError = .ok noHit
    ∧ fetch_uniprot_kegg_id .httpError = noHit
    ∧ fetch_uniprot_kegg_id .requestError = noHit
    ∧ (∀ rs, unet = .ok rs → find_kegg_entry rs = none →
        fetch_uniprot_kegg_id unet = noHit) := by
  refine ⟨?_, ?_, rfl, rfl, rfl, rfl, ?_⟩
  · cases net with
    | httpError => exact ⟨noHit, rfl⟩
    | requestError => exact ⟨noHit, rfl⟩
    | ok text =>
      rw [(C4_keyword_first_match sym species text (h text rfl)).1]
      exact ⟨_, rfl⟩
  · intro text hnet hnone
    subst hnet
    rw [(C4_keyword_first_match sym species text (h text rfl)).1]
    rw [List.find?_eq_none.2 (fun l hl => by simp [hnone l hl])]
    rfl
  · intro rs hu hnone
    subst hu
    simp [fetch_uniprot_kegg_id, hnone]

/-- Witness for C5 amended: a concrete unmatched response yields the
sentinel for Protocol B, and an empty result list yields the sentinel
for Protocol A. -/
theorem C5_resolver_error_handling_witness :
    fetch_kegg_id (str "XYZ") (str "hsa") (.ok (str "mmu:1\tXYZ; x")) =
      .ok noHit
    ∧ fetch_uniprot_kegg_id (.ok []) = noHit := by
  have h := C5_resolver_error_handling (str "XYZ") (str "hsa")
    (.ok (str "mmu:1\tXYZ; x")) (.ok [])
    (by intro text ht; cases ht; decide)
  refine ⟨h.2.1 (str "mmu:1\tXYZ; x") rfl (by decide), h.2.2.2.2.2.2 [] rfl (by decide)⟩

lemma mem_foldl_dedup (l acc : List Str) (x : Str) :
    x ∈ l.foldl (fun acc k => if k ∈ acc then acc else acc ++ [k]) acc ↔
      x ∈ acc ∨ x ∈ l := by
  induction l generalizing acc with
  | nil => simp
  | cons k l ih =>
    by_cases hk : k ∈ acc
    · rw [List.foldl_cons, if_pos hk, ih]
      constructor
      · rintro (h | h)
        · exact Or.inl h
        · exact Or.inr (List.mem_cons_of_mem k h)
      · rintro (h | h)
        · exact Or.inl h
        · rcases List.mem_cons.1 h with h | h
          · exact Or.inl (h ▸ hk)
          · exact Or.inr h
    · rw [List.foldl_cons, if_neg hk, ih]
      simp [List.mem_append, List.mem_cons]
      tauto

lemma mem_firstKeys (l : List Str) (x : Str) : x ∈ firstKeys l ↔ x ∈ l := by
  unfold firstKeys
  rw [mem_foldl_dedup]
  simp

lemma mem_filteredIds (ids cks : List Str) (x : Str) :
    x ∈ filteredIds ids cks ↔ x ∈ ids ∧ x ∉ cks := by
  unfold filteredIds
  rw [mem_firstKeys]
  simp

lemma alLookup_alInsert_self {α : Type} (m : List (Str × α)) (k : Str) (v : α) :
    alLookup k (alInsert m k v) = some v := by
  induction m with
  | nil => simp [alInsert, alLookup]
  | cons hd tl ih =>
    obtain ⟨k0, v0⟩ := hd
    by_cases h0 : k0 = k <;> simp [alInsert, alLookup, h0, ih]

lemma alLookup_alInsert_ne {α : Type} (m : List (Str × α)) (k0 k : Str)
    (v : α) (h : k0 ≠ k) :
    alLookup k (alInsert m k0 v) = alLookup k m := by
  induction m with
  | nil => simp [alInsert, alLookup, h]
  | cons hd tl ih =>
    obtain ⟨k1, v1⟩ := hd
    by_cases h1 : k1 = k0
    · subst h1
      simp [alInsert, alLookup, h, ih]
    · by_cases h2 : k1 = k <;> simp [alInsert, alLookup, h1, h2, ih, Ne.symm h]

lemma alLookup_pyUpdate_not_mem (b u : CombData) (k : Str)
    (h : k ∉ u.map Prod.fst) :
    alLookup k (pyUpdate b u) = alLookup k b := by
  induction u generalizing b with
  | nil => simp [pyUpdate]
  | cons p u ih =>
    obtain ⟨k0, v0⟩ := p
    simp only [List.map_cons, List.mem_cons] at h
    push_neg at h
    have : pyUpdate b ((k0, v0) :: u) = pyUpdate (alInsert b k0 v0) u := by
      simp [pyUpdate]
    rw [this, ih _ h.2, alLookup_alInsert_ne _ _ _ _ (Ne.symm h.1)]

lemma alLookup_pyUpdate_cache (b u : CombData) (k : Str)
    (v : List (Str × Entry)) (hnd : (u.map Prod.fst).Nodup)
    (h : alLookup k u = some v) :
    alLookup k (pyUpdate b u) = some v := by
  induction u generalizing b with
  | nil => simp [alLookup] at h
  | cons p u ih =>
    obtain ⟨k0, v0⟩ := p
    simp only [List.map_cons, List.nodup_cons] at hnd
    have hstep : pyUpdate b ((k0, v0) :: u) = pyUpdate (alInsert b k0 v0) u := by
      simp [pyUpdate]
    by_cases hk : k0 = k
    · subst hk
      rw [alLookup] at h
      simp at h
      subst h
      rw [hstep, alLookup_pyUpdate_not_mem _ _ _ hnd.1,
        alLookup_alInsert_self]
    · rw [alLookup, if_neg hk] at h
      rw [hstep, ih _ hnd.2 h]

/-- C7: the resume property fails on the code at this concrete input.
The cache, as a previous run of main persists it, keys its top level
by excel file name with the identifiers nested one level below; here
it holds identifier hsa:1 under file Significant_X, and the same file
requests only hsa:1. The identifier hsa:1 is present in the cache
(first conjunct), yet run_scrape subtracts the top-level file-name
keys, not the identifiers, from the requested ids, so a task carrying
hsa:1 is dispatched again and its resolver call is re-issued (second
conjunct), against the claim that no resolver call is issued for an
identifier already in the cache. -/
theorem C7_cache_keying_bug :
    alLookup2 (str "Significant_X") (str "hsa:1")
      [(str "Significant_X", [(str "hsa:1", ⟨str "k", str "h"⟩)])] =
      some ⟨str "k", str "h"⟩
    ∧ (str "Significant_X", str "hsa:1", str "ct") ∈
      dispatchedTasks [(str "Significant_X", str "ct", [str "hsa:1"])]
        [(str "Significant_X", [(str "hsa:1", ⟨str "k", str "h"⟩)])] := by
  decide

/-- C8: whatever the state of the cache file — absent, zero-length,
present with undecodable content, or present with decodable content —
get_json returns without raising: an empty dict in the first three
cases, and the decoded value as-is in the last. -/
theorem C8_cache_load_total (decode : Str → Except Unit CombData)
    (st : FileState) :
    (st = .absent → get_json decode st = [])
    ∧ (∀ c, st = .present c → c = [] → get_json decode st = [])
    ∧ (∀ c e, st = .present c → decode c = .error e → get_json decode st = [])
    ∧ (∀ c j, st = .present c → c ≠ [] → decode c = .ok j →
        get_json decode st = j) := by
  refine ⟨?_, ?_, ?_, ?_⟩
  · rintro rfl
    rfl
  · rintro c rfl rfl
    rfl
  · rintro c e rfl hdec
    by_cases hc : c = []
    · simp [get_json, hc]
    · simp [get_json, hc, hdec]
  · rintro c j rfl hc hdec
    simp [get_json, hc, hdec]

/-- Witness for C8: a concrete failing decode on a concrete nonempty
file yields the empty dict, and a concrete succeeding decode returns
its value unchanged. -/
theorem C8_cache_load_total_witness :
    get_json (fun _ => .error ()) (.present (str "bad")) = []
    ∧ get_json (fun _ => .ok [(str "F", [])]) (.present (str "x")) =
      [(str "F", [])] :=
  ⟨(C8_cache_load_total (fun _ => .error ()) (.present (str "bad"))).2.2.1
      (str "bad") () rfl rfl,
   (C8_cache_load_total (fun _ => .ok [(str "F", [])]) (.present (str "x"))).2.2.2
      (str "x") [(str "F", [])] rfl (by decide) rfl⟩

lemma alLookup2_cdStore_self (cd : CombData) (f i : Str) (e : Entry) :
    alLookup2 f i (cdStore cd f i e) = some e := by
  unfold alLookup2 cdStore
  rw [alLookup_alInsert_self]
  simp [alLookup_alInsert_self]

lemma alLookup2_cdStore_other (cd : CombData) (f i f0 i0 : Str) (e : Entry)
    (h : (f0, i0) ≠ (f, i)) :
    alLookup2 f i (cdStore cd f0 i0 e) = alLookup2 f i cd := by
  by_cases hf : f0 = f
  · subst hf
    have hi : i0 ≠ i := by
      rintro rfl
      exact h rfl
    unfold alLookup2 cdStore
    rw [alLookup_alInsert_self]
    cases hcd : alLookup f0 cd with
    | none => simp [hcd, alLookup_alInsert_ne _ _ _ _ hi, alLookup, hi]
    | some sub => simp [hcd, alLookup_alInsert_ne _ _ _ _ hi]
  · unfold alLookup2 cdStore
    rw [alLookup_alInsert_ne _ _ _ _ hf]

lemma processTask_lookup_other (fetch : Str → Str → Option Entry)
    (cd : CombData) (t : Str × Str × Str) (f i : Str)
    (h : slotOf t ≠ (f, i)) :
    alLookup2 f i (processTask fetch cd t) = alLookup2 f i cd := by
  unfold processTask
  cases fetch t.2.1 t.2.2 with
  | none => rfl
  | some e => exact alLookup2_cdStore_other cd f i t.1 t.2.1 e h

lemma foldl_processTask_lookup_none (fetch : Str → Str → Option Entry)
    (ts : List (Str × Str × Str)) (cd : CombData) (f i : Str)
    (h : ∀ t ∈ ts, slotOf t ≠ (f, i)) :
    alLookup2 f i (ts.foldl (processTask fetch) cd) = alLookup2 f i cd := by
  induction ts generalizing cd with
  | nil => rfl
  | cons t ts ih =>
    rw [List.foldl_cons, ih _ (fun x hx => h x (by simp [hx])),
      processTask_lookup_other _ _ _ _ _ (h t (by simp))]

lemma foldl_processTask_lookup (fetch : Str → Str → Option Entry)
    (ts : List (Str × Str × Str)) (cd : CombData) (f i : Str)
    (hnd : (ts.map slotOf).Nodup) :
    alLookup2 f i (ts.foldl (processTask fetch) cd) =
      match ts.find? (fun t => decide (slotOf t = (f, i))) with
      | none => alLookup2 f i cd
      | some t =>
        match fetch t.2.1 t.2.2 with
        | none => alLookup2 f i cd
        | some e => some e := by
  induction ts generalizing cd with
  | nil => rfl
  | cons t ts ih =>
    simp only [List.map_cons, List.nodup_cons] at hnd
    by_cases hslot : slotOf t = (f, i)
    · have hfind : (t :: ts).find? (fun t => decide (slotOf t = (f, i))) =
          some t := by
        rw [List.find?_cons_of_pos]
        simp [hslot]
      rw [hfind, List.foldl_cons]
      have hnone : ∀ x ∈ ts, slotOf x ≠ (f, i) := by
        intro x hx hc
        exact hnd.1 (hslot ▸ hc ▸ List.mem_map_of_mem slotOf hx)
      rw [foldl_processTask_lookup_none _ _ _ _ _ hnone]
      obtain ⟨hf1, hi1⟩ : t.1 = f ∧ t.2.1 = i := by
        rw [slotOf, Prod.mk.injEq] at hslot
        exact hslot
      unfold processTask
      cases hfe : fetch t.2.1 t.2.2 with
      | none => simp [hfe]
      | some e =>
        simp [hfe]
        rw [hf1, hi1]
        exact alLookup2_cdStore_self cd f i e
    · have hfind : (t :: ts).find? (fun t => decide (slotOf t = (f, i))) =
          ts.find? (fun t => decide (slotOf t = (f, i))) := by
        rw [List.find?_cons_of_neg]
        simp [hslot]
      have hcd : alLookup2 f i (processTask fetch cd t) = alLookup2 f i cd :=
        processTask_lookup_other _ _ _ _ _ hslot
      rw [hfind, List.foldl_cons, ih _ hnd.2]
      cases hft : ts.find? (fun t => decide (slotOf t = (f, i))) with
      | none => simp [hft, hcd]
      | some t2 =>
        simp [hft]
        cases fetch t2.2.1 t2.2.2 with
        | none => exact hcd
        | some e => rfl

lemma find?_eq_of_perm_unique {α : Type} (p : α → Bool) (l1 l2 : List α)
    (hperm : l1.Perm l2)
    (huniq : ∀ a ∈ l1, ∀ b ∈ l1, p a = true → p b = true → a = b) :
    l1.find? p = l2.find? p := by
  cases h1 : l1.find? p with
  | none =>
    cases h2 : l2.find? p with
    | none => rfl
    | some b =>
      have hb := List.find?_some h2
      have hmem := hperm.mem_iff.2 (List.mem_of_find?_eq_some h2)
      exact absurd hb (by simpa using List.find?_eq_none.1 h1 b hmem)
  | some a =>
    have ha := List.find?_some h1
    have hamem := List.mem_of_find?_eq_some h1
    cases h2 : l2.find? p with
    | none =>
      have := List.find?_eq_none.1 h2 a (hperm.mem_iff.1 hamem)
      exact absurd ha (by simpa using this)
    | some b =>
      have hb := List.find?_some h2
      have hbmem := hperm.mem_iff.2 (List.mem_of_find?_eq_some h2)
      exact congrArg some (huniq a hamem b hbmem ha hb)

/-- Counterexample for C9 as stated: two completion orders of the same
two tasks produce combined mappings whose serialized content differs
(the per-file dict lists its two identifiers in completion order), so
the output is not byte-identical across worker-completion orders. -/
theorem C9_byte_identity_counterexample :
    List.Perm [(str "F", str "a", str "c"), (str "F", str "b", str "c")]
      [(str "F", str "b", str "c"), (str "F", str "a", str "c")]
    ∧ mergeOrder (fun i ct => some ⟨i, ct⟩)
        [(str "F", str "a", str "c"), (str "F", str "b", str "c")] ≠
      mergeOrder (fun i ct => some ⟨i, ct⟩)
        [(str "F", str "b", str "c"), (str "F", str "a", str "c")] := by
  refine ⟨by decide, by decide⟩

/-- C9 amended: with fixed remote responses and each task writing its
own (file, id) slot once (slots pairwise distinct, and each merge step
taken atomically), the combined mapping is extensionally invariant
under completion order — every (file, id) lookup agrees across any two
completion orders that are permutations of each other — but the
insertion order of the per-file dicts, and hence the serialized bytes,
do depend on completion order. -/
theorem C9_completion_order_content (fetch : Str → Str → Option Entry)
    (ts1 ts2 : List (Str × Str × Str)) (hperm : ts1.Perm ts2)
    (hnd : (ts1.map slotOf).Nodup) :
    ∀ f i, alLookup2 f i (mergeOrder fetch ts1) =
      alLookup2 f i (mergeOrder fetch ts2) := by
  intro f i
  have hnd2 : (ts2.map slotOf).Nodup :=
    ((hperm.map slotOf).nodup_iff).1 hnd
  have huniq : ∀ a ∈ ts1, ∀ b ∈ ts1,
      decide (slotOf a = (f, i)) = true → decide (slotOf b = (f, i)) = true →
      a = b := by
    intro a ha b hb hpa hpb
    simp only [decide_eq_true_eq] at hpa hpb
    exact List.inj_on_of_nodup_map hnd ha hb (hpa.trans hpb.symm)
  rw [mergeOrder, mergeOrder,
    foldl_processTask_lookup _ _ _ _ _ hnd,
    foldl_processTask_lookup _ _ _ _ _ hnd2,
    find?_eq_of_perm_unique _ _ _ hperm huniq]

/-- Witness for C9 amended: for the two concrete completion orders of
the counterexample, the lookups of both written slots agree. -/
theorem C9_completion_order_content_witness :
    alLookup2 (str "F") (str "a")
      (mergeOrder (fun i ct => some ⟨i, ct⟩)
        [(str "F", str "a", str "c"), (str "F", str "b", str "c")]) =
    alLookup2 (str "F") (str "a")
      (mergeOrder (fun i ct => some ⟨i, ct⟩)
        [(str "F", str "b", str "c"), (str "F", str "a", str "c")]) :=
  C9_completion_order_content (fun i ct => some ⟨i, ct⟩)
    [(str "F", str "a", str "c"), (str "F", str "b", str "c")]
    [(str "F", str "b", str "c"), (str "F", str "a", str "c")]
    (by decide) (by decide) (str "F") (str "a")

end KeggScrape
